import Mathlib

/-!
# AgentFS / StackedFS — verification of the overlay kernel

Shallow embedding of the two FUSE backends of the `agentfs` repository
(`src/agentfs/fuse.py`, synchronous fusepy backend, and
`src/stackedfs/fuse.py`, asynchronous pyfuse3 backend) and proofs about
the layered namespace resolver, the directory merger, the hash-based
conflict detector, the copy-up write path, and the inode/handle tables.

Modelling conventions:
* A logical path is represented by its list of components (`LPath`);
  the source's normalisation `'/' + path.lstrip('/')` and the key
  `path.lstrip('/')` used by the hash index both become the identity on
  this representation, and `agents/<name>/<p>` resp. `base/<p>` are
  represented by the pair of a `LayerRef` and the component list.
* A physical layer (one directory tree on disk) is a finite map from
  component lists to entries, as an association list.  `os.listdir`
  returns the children of a directory in the order of that list
  ("filesystem order"); the layer roots `base/` and `agents/<name>/`
  (created by `_ensure_directories`) always exist as directories.
* Byte strings are `List Nat`; SHA-256 (`hashlib.sha256(...).hexdigest()`)
  is modelled as an injective fingerprint of the file content — the code
  only ever compares such fingerprints for equality, and a fingerprint is
  never the empty/None value (a real hexdigest is a non-empty string), so
  Python truthiness of a present hash is `Option.isSome`.
* Mutable Python state (`self.file_contents`, `self.conflicts`,
  `self._path_to_inode`, ...) becomes explicit state records, and every
  operation returns the new state paired with an `Except`-style result;
  an exception raised after a mutation (e.g. EBUSY after appending a
  conflict record) returns the mutated state together with the error.
-/

set_option maxHeartbeats 1000000

namespace AgentFS

/-! ## Association lists (Python `dict` with explicit ordering) -/

def alookup {α β : Type} [DecidableEq α] (k : α) : List (α × β) → Option β
  | [] => none
  | (k', v) :: rest => if k' = k then some v else alookup k rest

def aupdate {α β : Type} [DecidableEq α] (k : α) (v : β) : List (α × β) → List (α × β)
  | [] => [(k, v)]
  | (k', v') :: rest => if k' = k then (k, v) :: rest else (k', v') :: aupdate k v rest

def aerase {α β : Type} [DecidableEq α] (k : α) : List (α × β) → List (α × β)
  | [] => []
  | (k', v') :: rest => if k' = k then aerase k rest else (k', v') :: aerase k rest


/-! ## Paths, entries, layers -/

/-- A logical path, as its list of components: `/a/b` is `["a", "b"]`,
the root `/` is `[]`. -/
abbrev LPath := List String

/-- File content as a byte string. -/
abbrev Bytes := List Nat

/-- An entry of one physical layer: a regular file with its content, or a
directory.  (Symlink-specific resolver behaviour is modelled separately
below, in the `Sym` section.) -/
inductive FsEntry where
  | file (content : Bytes)
  | dir
  deriving DecidableEq, Repr

/-- One physical layer (`base/` or `agents/<name>/`): a finite map from
logical paths to entries.  The root directory of the layer itself is not
a key; it always exists (`_ensure_directories`). -/
abbrev Layer := List (LPath × FsEntry)

/-- The proper ancestors of a path, outermost first: for `/a/b/c` these
are `/a` and `/a/b`.  (`agent_path.parent.mkdir(parents=True)` creates
exactly these, below the layer root.) -/
def ancestors : LPath → List LPath
  | [] => []
  | [_] => []
  | x :: rest => [x] :: (ancestors rest).map (x :: ·)

/-- `<layer>/p` exists (`Path.exists()` for entries that are not
symlinks): the layer root always exists, any other path exists iff it is
a key of the layer map. -/
def existsIn (L : Layer) (p : LPath) : Bool :=
  p = [] || (alookup p L).isSome

/-- `<layer>/p` exists and is a directory (`.exists() and .is_dir()`). -/
def isDirAt (L : Layer) (p : LPath) : Bool :=
  p = [] || alookup p L == some .dir

/-- If `p = d ++ [n]`, the basename `n`, else `none`. -/
def childName? (d p : LPath) : Option String :=
  if p.dropLast = d then p.getLast? else none

/-- `os.listdir(<layer>/d)`: the basenames of the immediate children of
`d` recorded in the layer, in layer ("filesystem") order. -/
def listDir (L : Layer) (d : LPath) : List String :=
  L.filterMap (fun pe => childName? d pe.1)

/-! ## The layer stack -/

/-- The stack of layers: the manifest order `agents.json` (`agents`,
index 0 of the stack being `base`), the base tree, and the per-agent
trees.  An agent name that has no entry in `agentLayers` has an empty
tree. -/
structure Layers where
  agents : List String
  base : Layer
  agentLayers : List (String × Layer)
  deriving DecidableEq

/-- Which layer a resolved path lives in (the second component of the
source's `(physical_path, layer_name)` result; physical-path equality of
the source is equality of the `LayerRef` paired with the logical path). -/
inductive LayerRef where
  | base
  | agent (name : String)
  deriving DecidableEq, Repr

def layerOf (ls : Layers) (a : String) : Layer :=
  (alookup a ls.agentLayers).getD []

def layerFor (ls : Layers) : LayerRef → Layer
  | .base => ls.base
  | .agent a => layerOf ls a

/-- The resolver's scan order: agent layers from last in the manifest to
first, then the base layer. -/
def scanRefs (ls : Layers) : List LayerRef :=
  ls.agents.reverse.map .agent ++ [.base]

/-- `_get_resolved_path`: scan agent layers in reversed manifest order,
then base; return the first layer in which `p` exists, else `none`. -/
def getResolvedPath (ls : Layers) (p : LPath) : Option LayerRef :=
  match ls.agents.reverse.find? (fun a => existsIn (layerOf ls a) p) with
  | some a => some (.agent a)
  | none => if existsIn ls.base p then some .base else none

/-- Write an entry into the layer named `a`. -/
def setAgentLayer (ls : Layers) (a : String) (L : Layer) : Layers :=
  { ls with agentLayers := aupdate a L ls.agentLayers }

/-- Write an entry at `(ref, p)` — the physical file a handle is bound
to may live in any layer. -/
def setEntryRef (ls : Layers) : LayerRef → LPath → FsEntry → Layers
  | .base, p, e => { ls with base := aupdate p e ls.base }
  | .agent a, p, e => setAgentLayer ls a (aupdate p e (layerOf ls a))

/-- Remove the entry at `(ref, p)` (`resolved_path.unlink()` may act on
any layer). -/
def removeEntryRef (ls : Layers) : LayerRef → LPath → Layers
  | .base, p => { ls with base := aerase p ls.base }
  | .agent a, p => setAgentLayer ls a (aerase p (layerOf ls a))

/-! ## Hashing and the conflict detector -/

/-- SHA-256 (`hashlib.sha256(content).hexdigest()`), modelled as an
injective fingerprint of the content; the code only compares
fingerprints for equality and a real hexdigest is never falsy. -/
def sha256 (b : Bytes) : Bytes := b

/-- `_compute_hash` on an optional entry: a regular file yields its
fingerprint; a missing path yields `none`; opening a directory raises
`IsADirectoryError` (an `OSError`), which `_compute_hash` swallows into
`None`. -/
def hashOfEntry : Option FsEntry → Option Bytes
  | some (.file c) => some (sha256 c)
  | _ => none

/-- Hash of the currently resolved physical file for `p` (`none` when
the path resolves nowhere or hashing degrades to `None`). -/
def currentHashOf (ls : Layers) (p : LPath) : Option Bytes :=
  match getResolvedPath ls p with
  | none => none
  | some ref => hashOfEntry (alookup p (layerFor ls ref))

/-- A hash-index entry: `{hash, agent}` as stored in
`self.file_contents`. -/
structure HashEntry where
  hash : Option Bytes
  agent : String
  deriving DecidableEq, Repr

/-- The hash index `self.file_contents`, keyed by the lstripped logical
path (the same component list). -/
abbrev HashIndex := List (LPath × HashEntry)

/-- The stored hash the active agent last recorded for `p`, if any. -/
def storedHashOf (fc : HashIndex) (p : LPath) : Option Bytes :=
  match alookup p fc with
  | some e => e.hash
  | none => none

/-- `_check_conflict`: true iff the index holds a (truthy) stored hash
for `p`, the current resolved file hashes to a (truthy) value, and the
two differ. -/
def checkConflictCore (ls : Layers) (fc : HashIndex) (p : LPath) : Bool :=
  let current := currentHashOf ls p
  match alookup p fc with
  | some e =>
    match e.hash, current with
    | some sh, some ch => decide (sh ≠ ch)
    | _, _ => false
  | none => false

/-- The conflict condition as the specification words it: the hash index
holds a non-empty stored hash for `p`, the hash of the currently
resolved physical file is non-empty, and the two differ. -/
def HasConflict (ls : Layers) (fc : HashIndex) (p : LPath) : Prop :=
  ∃ sh ch, storedHashOf fc p = some sh ∧ currentHashOf ls p = some ch ∧ sh ≠ ch

/-- A conflict record `{path, agent, timestamp}`. -/
structure Conflict where
  path : LPath
  agent : String
  timestamp : Nat
  deriving DecidableEq, Repr

/-! ## Directory merger (`_get_all_entries`)

The source fills one `OrderedDict` while iterating the reversed agent
list and then the base layer; an `OrderedDict` keeps the position of the
first insertion of a key, so the result is the first-occurrence
deduplication of the concatenated per-layer listings. -/

def dedupAcc (seen : List String) : List String → List String
  | [] => []
  | x :: xs => if x ∈ seen then dedupAcc seen xs else x :: dedupAcc (x :: seen) xs

/-- The concatenated listings of `d` from the agent layers, topmost
(last manifest entry) first. -/
def upperListing (ls : Layers) (d : LPath) : List String :=
  (ls.agents.reverse.map (fun a =>
    if isDirAt (layerOf ls a) d then listDir (layerOf ls a) d else [])).flatten

/-- The listing of `d` from the base layer. -/
def baseListing (ls : Layers) (d : LPath) : List String :=
  if isDirAt ls.base d then listDir ls.base d else []

/-- `_get_all_entries`: merged, deduplicated enumeration of a
directory. -/
def getAllEntries (ls : Layers) (d : LPath) : List String :=
  dedupAcc [] (upperListing ls d ++ baseListing ls d)



/-! ## Error kinds (POSIX errno values raised by the dispatchers) -/

inductive Err where
  | ENOENT | EBUSY | EXDEV | EISDIR | ENOTDIR | EINVAL | ENOTEMPTY
  deriving DecidableEq, Repr

deriving instance DecidableEq for Except

/-! ## The synchronous backend (`src/agentfs/fuse.py`, class `AgentFS`) -/

/-- Mount-scoped mutable state of the synchronous backend: the layer
stack, the active agent (`AGENT_ID`), the hash index
(`self.file_contents`), the conflict log (`self.conflicts`), and a clock
supplying `time.time()` for conflict records. -/
structure AgentState where
  ls : Layers
  agentId : String
  fileContents : HashIndex
  conflicts : List Conflict
  now : Nat
  deriving DecidableEq

def checkConflict (s : AgentState) (p : LPath) : Bool :=
  checkConflictCore s.ls s.fileContents p

/-- `_record_conflict`: append `{path, agent, timestamp}` to the log. -/
def recordConflict (s : AgentState) (p : LPath) : AgentState :=
  { s with conflicts := s.conflicts ++ [⟨p, s.agentId, s.now⟩] }

/-- Python file write at an offset: `seek(offset)` then `write(data)`;
seeking past EOF zero-fills the gap. -/
def writeAt (old : Bytes) (off : Nat) (data : Bytes) : Bytes :=
  old.take off ++ List.replicate (off - old.length) 0 ++ data
    ++ old.drop (off + data.length)

/-- `agent_path.parent.mkdir(parents=True, exist_ok=True)`: create the
missing ancestors of `p` as directories, outermost first; hitting an
ancestor that exists as a regular file raises (`ENOTDIR`), leaving the
directories created so far in place.  Returns the updated layer and
whether the walk succeeded. -/
def mkdirParentsGo (L : Layer) : List LPath → Layer × Bool
  | [] => (L, true)
  | q :: rest =>
    match alookup q L with
    | some .dir => mkdirParentsGo L rest
    | some (.file _) => (L, false)
    | none => mkdirParentsGo (aupdate q .dir L) rest

/-- `AgentFS.write`: conflict gate, then write into the active agent's
layer — opening `r+b` when the agent copy exists (offset honoured),
falling back to `wb` (fresh file, offset ignored, no copy-up from the
resolved layer) on `FileNotFoundError` — then store the fresh hash of
the agent copy in the index.  Returns the byte count written. -/
def agentWrite (s : AgentState) (p : LPath) (data : Bytes) (offset : Nat) :
    AgentState × Except Err Nat :=
  if checkConflict s p then
    (recordConflict s p, .error .EBUSY)
  else if p = [] then
    -- `open(agents/<id>/, ...)` on the layer root raises IsADirectoryError
    (s, .error .EISDIR)
  else
    let L := layerOf s.ls s.agentId
    match mkdirParentsGo L (ancestors p) with
    | (L', false) => ({ s with ls := setAgentLayer s.ls s.agentId L' }, .error .ENOTDIR)
    | (L', true) =>
      match alookup p L' with
      | some .dir =>
        ({ s with ls := setAgentLayer s.ls s.agentId L' }, .error .EISDIR)
      | some (.file old) =>
        let c := writeAt old offset data
        ({ s with
            ls := setAgentLayer s.ls s.agentId (aupdate p (.file c) L'),
            fileContents :=
              aupdate p ⟨some (sha256 c), s.agentId⟩ s.fileContents },
          .ok data.length)
      | none =>
        -- `wb` fallback: fresh agent file containing exactly `data`
        let c := data
        ({ s with
            ls := setAgentLayer s.ls s.agentId (aupdate p (.file c) L'),
            fileContents :=
              aupdate p ⟨some (sha256 c), s.agentId⟩ s.fileContents },
          .ok data.length)

/-- `AgentFS.rename`: conflict gate on the old path; cross-device check
(`old_resolved != old_agent_path` ⇒ EXDEV); if the active agent's copy
of `old` exists, move it and move the hash-index entry
(`file_contents[new] = file_contents[old]; del file_contents[old]`);
otherwise silently succeed. -/
def agentRename (s : AgentState) (old new : LPath) :
    AgentState × Except Err Unit :=
  if checkConflict s old then
    (recordConflict s old, .error .EBUSY)
  else
    let keep : Bool :=
      match getResolvedPath s.ls old with
      | some r => decide (r = .agent s.agentId)
      | none => true
    if keep then
      let L := layerOf s.ls s.agentId
      match alookup old L with
      | some e =>
        let L' := aupdate new e (aerase old L)
        let fc' :=
          match alookup old s.fileContents with
          | some he => aerase old (aupdate new he s.fileContents)
          | none => s.fileContents
        ({ s with ls := setAgentLayer s.ls s.agentId L', fileContents := fc' },
          .ok ())
      | none =>
        if old = [] then (s, .error .EINVAL) else (s, .ok ())
    else
      (s, .error .EXDEV)

/-- `AgentFS.unlink`: fail ENOENT when the path resolves nowhere;
remove the active agent's copy when it exists (`Path.unlink` on a
directory raises `IsADirectoryError` before the index is touched); the
`elif resolved_path == agent_path` arm of the source is unreachable
(the resolver only returns existing paths); finally drop the hash-index
entry.  No layer other than the active agent's is ever written. -/
def agentUnlink (s : AgentState) (p : LPath) : AgentState × Except Err Unit :=
  match getResolvedPath s.ls p with
  | none => (s, .error .ENOENT)
  | some _ =>
    let L := layerOf s.ls s.agentId
    match alookup p L with
    | some (.file _) =>
      ({ s with
          ls := setAgentLayer s.ls s.agentId (aerase p L),
          fileContents := aerase p s.fileContents },
        .ok ())
    | some .dir => (s, .error .EISDIR)
    | none =>
      if p = [] then (s, .error .EISDIR)
      else ({ s with fileContents := aerase p s.fileContents }, .ok ())

/-! ## The asynchronous backend (`src/stackedfs/fuse.py`, class `StackedFS`) -/

/-- `ROOT_INODE` of pyfuse3. -/
def rootInode : Nat := 1

/-- Mount-scoped state of the pyfuse3 backend: in addition to the layer
stack, hash index and conflict log it keeps the inode tables
(`_path_to_inode` / `_inode_to_path`, seeded with the root), the inode
counter, and the open-file table `_open_files` binding each handle to
the physical file (layer and path) it was opened on. -/
structure StackedState where
  ls : Layers
  agentId : String
  fileContents : HashIndex
  conflicts : List Conflict
  now : Nat
  pathToInode : List (LPath × Nat)
  inodeToPath : List (Nat × LPath)
  inodeCounter : Nat
  openFiles : List (Nat × (LayerRef × LPath))
  fhCounter : Nat
  deriving DecidableEq

/-- `_add_path_to_inode_map`: return the existing inode for `path` or
allocate the next counter value and record the pair in both maps. -/
def addPathToInodeMap (s : StackedState) (p : LPath) : StackedState × Nat :=
  match alookup p s.pathToInode with
  | some i => (s, i)
  | none =>
    let i := s.inodeCounter + 1
    ({ s with
        inodeCounter := i,
        pathToInode := aupdate p i s.pathToInode,
        inodeToPath := aupdate i p s.inodeToPath },
      i)

/-- `_get_inode_for_path`: existing mapping, else map the path if it
resolves in some layer, else if the active agent's layer has it
(even when the resolver does not see that layer), else `none`. -/
def getInodeForPath (s : StackedState) (p : LPath) : StackedState × Option Nat :=
  match alookup p s.pathToInode with
  | some i => (s, some i)
  | none =>
    match getResolvedPath s.ls p with
    | some _ =>
      let (s', i) := addPathToInodeMap s p
      (s', some i)
    | none =>
      if existsIn (layerOf s.ls s.agentId) p then
        let (s', i) := addPathToInodeMap s p
        (s', some i)
      else (s, none)

def checkConflictS (s : StackedState) (p : LPath) : Bool :=
  checkConflictCore s.ls s.fileContents p

def recordConflictS (s : StackedState) (p : LPath) : StackedState :=
  { s with conflicts := s.conflicts ++ [⟨p, s.agentId, s.now⟩] }

/-- `StackedFS.open`: resolve the inode's path, bump the handle counter
(before the `open(...)` call, so the bump survives a failed open), open
the *resolved* physical file — read-only opens do not copy up, and
write opens bind the handle to whatever layer the resolver chose — and
record `(handle, (layer, path))`.  Opening a directory (or the root)
raises `IsADirectoryError`. -/
def stackedOpen (s : StackedState) (inode : Nat) :
    StackedState × Except Err Nat :=
  match alookup inode s.inodeToPath with
  | none => (s, .error .ENOENT)
  | some p =>
    match getResolvedPath s.ls p with
    | none => (s, .error .ENOENT)
    | some r =>
      let fh := s.fhCounter + 1
      match alookup p (layerFor s.ls r) with
      | some (.file _) =>
        ({ s with fhCounter := fh, openFiles := aupdate fh (r, p) s.openFiles },
          .ok fh)
      | _ => ({ s with fhCounter := fh }, .error .EISDIR)

/-- `StackedFS.write`: look up the handle (unknown handles raise ENOENT
in this backend), run the conflict gate on the handle's logical path,
create the agent-layer parent directories, then write through the open
file object — i.e. into the physical file the handle was bound to at
open time, which may live in a lower layer — and finally store the hash
of the (possibly absent) agent copy in the index. -/
def stackedWrite (s : StackedState) (fh : Nat) (off : Nat) (buf : Bytes) :
    StackedState × Except Err Nat :=
  match alookup fh s.openFiles with
  | none => (s, .error .ENOENT)
  | some (r, p) =>
    if checkConflictS s p then
      (recordConflictS s p, .error .EBUSY)
    else
      let L := layerOf s.ls s.agentId
      match mkdirParentsGo L (ancestors p) with
      | (L', false) =>
        ({ s with ls := setAgentLayer s.ls s.agentId L' }, .error .ENOTDIR)
      | (L', true) =>
        let ls1 := setAgentLayer s.ls s.agentId L'
        match alookup p (layerFor ls1 r) with
        | some (.file old) =>
          let c := writeAt old off buf
          let ls2 := setEntryRef ls1 r p (.file c)
          let h := hashOfEntry (alookup p (layerOf ls2 s.agentId))
          ({ s with
              ls := ls2,
              fileContents := aupdate p ⟨h, s.agentId⟩ s.fileContents },
            .ok buf.length)
        | _ =>
          -- the handle's backing file is gone or a directory; the write
          -- through the stale descriptor is not modelled further
          ({ s with ls := ls1 }, .error .EINVAL)

/-- `StackedFS.unlink`: build the child path from the parent inode and
name; ENOENT when it resolves nowhere; delete the active agent's copy
when it exists, **otherwise delete the resolved path itself — in
whichever layer it lives, including `base/`** (`resolved_path.unlink()`);
then drop the inode mapping and the hash-index entry. -/
def stackedUnlink (s : StackedState) (parentInode : Nat) (name : String) :
    StackedState × Except Err Unit :=
  match alookup parentInode s.inodeToPath with
  | none => (s, .error .ENOENT)
  | some pp =>
    let fp := pp ++ [name]
    match getResolvedPath s.ls fp with
    | none => (s, .error .ENOENT)
    | some r =>
      let L := layerOf s.ls s.agentId
      let removed : Option Layers :=
        match alookup fp L with
        | some (.file _) => some (setAgentLayer s.ls s.agentId (aerase fp L))
        | some .dir => none
        | none =>
          match alookup fp (layerFor s.ls r) with
          | some (.file _) => some (removeEntryRef s.ls r fp)
          | _ => none
      match removed with
      | none => (s, .error .EISDIR)
      | some ls' =>
        let s1 := { s with ls := ls' }
        let s2 :=
          match alookup fp s1.pathToInode with
          | some i =>
            { s1 with
                pathToInode := aerase fp s1.pathToInode,
                inodeToPath := aerase i s1.inodeToPath }
          | none => s1
        ({ s2 with fileContents := aerase fp s2.fileContents }, .ok ())

/-- `StackedFS.rename`: build both paths from the parent inodes; run the
conflict gate on the old path; EXDEV when the old path resolves outside
the active agent's layer; if the active copy exists, move it, rewrite
the inode maps (`del path_to_inode[old]; inode_to_path[i] = new;
path_to_inode[new] = i`) and move the hash-index entry; otherwise
silently succeed. -/
def stackedRename (s : StackedState) (pOld : Nat) (nOld : String)
    (pNew : Nat) (nNew : String) : StackedState × Except Err Unit :=
  match alookup pOld s.inodeToPath, alookup pNew s.inodeToPath with
  | some opp, some npp =>
    let oldP := opp ++ [nOld]
    let newP := npp ++ [nNew]
    if checkConflictS s oldP then
      (recordConflictS s oldP, .error .EBUSY)
    else
      let keep : Bool :=
        match getResolvedPath s.ls oldP with
        | some r => decide (r = .agent s.agentId)
        | none => true
      if keep then
        let L := layerOf s.ls s.agentId
        match alookup oldP L with
        | some e =>
          let L' := aupdate newP e (aerase oldP L)
          let s1 := { s with ls := setAgentLayer s.ls s.agentId L' }
          let s2 :=
            match alookup oldP s1.pathToInode with
            | some i =>
              { s1 with
                  pathToInode := aupdate newP i (aerase oldP s1.pathToInode),
                  inodeToPath := aupdate i newP s1.inodeToPath }
            | none => s1
          let s3 :=
            match alookup oldP s2.fileContents with
            | some he =>
              { s2 with
                  fileContents := aerase oldP (aupdate newP he s2.fileContents) }
            | none => s2
          (s3, .ok ())
        | none =>
          if oldP = [] then (s, .error .EINVAL) else (s, .ok ())
      else
        (s, .error .EXDEV)
  | _, _ => (s, .error .ENOENT)

/-- `StackedFS.rmdir`: build the path; remove the directory from the
active agent's layer when present there (an entry that is a regular
file raises `NotADirectoryError`, a non-empty directory raises
`ENOTEMPTY` before any state changes); then drop the inode mapping. -/
def stackedRmdir (s : StackedState) (parentInode : Nat) (name : String) :
    StackedState × Except Err Unit :=
  match alookup parentInode s.inodeToPath with
  | none => (s, .error .ENOENT)
  | some pp =>
    let dp := pp ++ [name]
    let L := layerOf s.ls s.agentId
    let removed : Option Layers :=
      match alookup dp L with
      | some .dir =>
        if listDir L dp = [] then some (setAgentLayer s.ls s.agentId (aerase dp L))
        else none
      | some (.file _) => none
      | none => some s.ls
    match removed with
    | none =>
      (s, .error (if alookup dp L = some .dir then .ENOTEMPTY else .ENOTDIR))
    | some ls' =>
      let s1 := { s with ls := ls' }
      match alookup dp s1.pathToInode with
      | some i =>
        ({ s1 with
            pathToInode := aerase dp s1.pathToInode,
            inodeToPath := aerase i s1.inodeToPath },
          .ok ())
      | none => (s1, .ok ())

/-! ## Symlink-aware existence model for the resolver

`_get_resolved_path` tests presence with `Path.exists()`.  To settle how
symlinks are treated, this refined model distinguishes `os.stat`
semantics (`Path.exists()` follows symlink chains; a broken chain or a
loop — `OSError`/`ELOOP` — yields `False`) from `os.lstat` semantics
(the symlink itself counts).  Symlink targets are modelled as logical
paths within the same layer; `fuel` bounds chain length the way the
kernel's `ELOOP` limit does. -/

inductive SEntry where
  | sfile (content : Bytes)
  | sdir
  | slink (target : LPath)
  deriving DecidableEq, Repr

abbrev SLayer := List (LPath × SEntry)

/-- `Path.exists()` — `os.stat` semantics: follow symlinks; exhausted
fuel plays the role of `ELOOP`, which `Path.exists()` turns into
`False`. -/
def sExistsStat (L : SLayer) : Nat → LPath → Bool
  | 0, _ => false
  | fuel + 1, p =>
    p = [] ||
      match alookup p L with
      | some (.slink t) => sExistsStat L fuel t
      | some _ => true
      | none => false

/-- `os.lstat` semantics: a symlink — dangling or not — counts as
present. -/
def sExistsLstat (L : SLayer) (p : LPath) : Bool :=
  p = [] || (alookup p L).isSome

structure SLayers where
  agents : List String
  base : SLayer
  agentLayers : List (String × SLayer)
  deriving DecidableEq

def sLayerOf (sl : SLayers) (a : String) : SLayer :=
  (alookup a sl.agentLayers).getD []

/-- `_get_resolved_path` over the symlink-aware model, with the
existence test the source actually performs (`Path.exists()`, i.e.
`sExistsStat`). -/
def sGetResolvedPath (fuel : Nat) (sl : SLayers) (p : LPath) :
    Option LayerRef :=
  match sl.agents.reverse.find? (fun a => sExistsStat (sLayerOf sl a) fuel p) with
  | some a => some (.agent a)
  | none => if sExistsStat sl.base fuel p then some .base else none

/-! ## Inode-map invariants -/

/-- The path→inode and inode→path maps are mutual inverses. -/
def MapsInverse (pi : List (LPath × Nat)) (ip : List (Nat × LPath)) : Prop :=
  ∀ p i, alookup p pi = some i ↔ alookup i ip = some p

/-- Every allocated inode is at most the counter (freshness of
`counter + 1`). -/
def InodeBound (pi : List (LPath × Nat)) (c : Nat) : Prop :=
  ∀ p i, alookup p pi = some i → i ≤ c

/-- The inode-table invariant of the pyfuse3 backend. -/
def InodeInv (s : StackedState) : Prop :=
  MapsInverse s.pathToInode s.inodeToPath ∧
    InodeBound s.pathToInode s.inodeCounter

/-! ## Concrete states used by counterexamples and witnesses -/

/-- C2: `base/x = [1,2,3,4]` ("orig"), agents `["a1"]`, active `a1`, no
agent copy. -/
def exC2 : AgentState :=
  { ls := { agents := ["a1"], base := [(["x"], .file [1, 2, 3, 4])],
            agentLayers := [("a1", [])] },
    agentId := "a1", fileContents := [], conflicts := [], now := 0 }

/-- C2, pyfuse3 variant: same layers, root inode mapped. -/
def exC2S : StackedState :=
  { ls := { agents := ["a1"], base := [(["x"], .file [1, 2, 3, 4])],
            agentLayers := [("a1", [])] },
    agentId := "a1", fileContents := [], conflicts := [], now := 0,
    pathToInode := [([], rootInode)], inodeToPath := [(rootInode, [])],
    inodeCounter := 1, openFiles := [], fhCounter := 0 }

/-- C2: after `lookup` of `/x` (inode 2). -/
def exC2Sa : StackedState := (getInodeForPath exC2S ["x"]).1

/-- C2: after opening inode 2 for writing (handle 1, bound to the base
copy). -/
def exC2Sb : StackedState := (stackedOpen exC2Sa 2).1

/-- C3: `base/f` exists, active agent `a1` has no copy. -/
def exC3 : StackedState :=
  { ls := { agents := ["a1"], base := [(["f"], .file [1])],
            agentLayers := [("a1", [])] },
    agentId := "a1", fileContents := [], conflicts := [], now := 0,
    pathToInode := [([], rootInode)], inodeToPath := [(rootInode, [])],
    inodeCounter := 1, openFiles := [], fhCounter := 0 }

/-- C3 witness state for the AgentFS conjunct: `base/f` and an active
copy `agents/a1/f`. -/
def exC3A : AgentState :=
  { ls := { agents := ["a1"], base := [(["f"], .file [1])],
            agentLayers := [("a1", [(["f"], .file [2])])] },
    agentId := "a1", fileContents := [(["f"], ⟨some (sha256 [2]), "a1"⟩)],
    conflicts := [], now := 0 }

/-- C4 witness state: agents `[A1, A2]`, `p` present in all three
layers. -/
def exC4 : Layers :=
  { agents := ["A1", "A2"], base := [(["p"], .file [0])],
    agentLayers := [("A1", [(["p"], .file [1])]), ("A2", [(["p"], .file [2])])] }

/-- C5: the active agent has a stale stored hash for `/p`, whose only
copy lives in `base/` with different content — the conflict gate fires
before the cross-device check. -/
def exC5 : AgentState :=
  { ls := { agents := ["a1"], base := [(["p"], .file [8])],
            agentLayers := [("a1", [])] },
    agentId := "a1", fileContents := [(["p"], ⟨some (sha256 [7]), "a1"⟩)],
    conflicts := [], now := 0 }

/-- C5 witness state: like `exC5` but with no stored hash, so the gate
stays quiet and EXDEV is reached. -/
def exC5W : AgentState :=
  { ls := { agents := ["a1"], base := [(["p"], .file [8])],
            agentLayers := [("a1", [])] },
    agentId := "a1", fileContents := [], conflicts := [], now := 0 }

/-- C6: agents `["a1", "a2"]` (manifest order), `a1` holds `/x`, `a2`
holds `/y`, base holds `/x` and `/b`. -/
def exC6 : Layers :=
  { agents := ["a1", "a2"], base := [(["x"], .file [0]), (["b"], .file [3])],
    agentLayers := [("a1", [(["x"], .file [1])]), ("a2", [(["y"], .file [2])])] }

/-- C7: `agents/a1/p` and `base/q`; only the root inode mapped yet. -/
def exC7 : StackedState :=
  { ls := { agents := ["a1"], base := [(["q"], .file [2])],
            agentLayers := [("a1", [(["p"], .file [1])])] },
    agentId := "a1", fileContents := [], conflicts := [], now := 0,
    pathToInode := [([], rootInode)], inodeToPath := [(rootInode, [])],
    inodeCounter := 1, openFiles := [], fhCounter := 0 }

/-- C7: after `lookup` of `/p` (inode 2). -/
def exC7a : StackedState := (getInodeForPath exC7 ["p"]).1

/-- C7: after `lookup` of `/q` as well (inode 3). -/
def exC7b : StackedState := (getInodeForPath exC7a ["q"]).1

/-- C7: after `rename /p → /q` onto the already-mapped `/q`. -/
def exC7c : StackedState := (stackedRename exC7b 1 "p" 1 "q").1

/-- C8: active agent `a1` is *not* the topmost layer for `/p` — `a2`
(later in the manifest) already holds `/p` with different content. -/
def exC8 : AgentState :=
  { ls := { agents := ["a1", "a2"], base := [],
            agentLayers := [("a1", []), ("a2", [(["p"], .file [5])])] },
    agentId := "a1", fileContents := [], conflicts := [], now := 0 }

/-- C8: after the first `write /p = [9]` by `a1`. -/
def exC8a : AgentState := (agentWrite exC8 ["p"] [9] 0).1

/-- C8 witness state: single agent, `base/p` only. -/
def exC8W : AgentState :=
  { ls := { agents := ["a1"], base := [(["p"], .file [7])],
            agentLayers := [("a1", [])] },
    agentId := "a1", fileContents := [], conflicts := [], now := 0 }

/-- C8 witness: after the first `write /p = [9]`. -/
def exC8Wa : AgentState := (agentWrite exC8W ["p"] [9] 0).1

/-- C9: the topmost (only) agent layer holds a dangling symlink
`/p → /q`; no other layer has `/p`. -/
def exC9 : SLayers :=
  { agents := ["a1"], base := [],
    agentLayers := [("a1", [(["p"], .slink ["q"])])] }

/-- C9 witness state: `/p → /q` with `/q` a regular file in the same
layer. -/
def exC9W : SLayers :=
  { agents := ["a1"], base := [],
    agentLayers := [("a1", [(["p"], .slink ["q"]), (["q"], .sfile [3])])] }

/-- C10 witness state: `/ghost` exists nowhere. -/
def exC10 : AgentState :=
  { ls := { agents := ["a1"], base := [(["f"], .file [1])],
            agentLayers := [("a1", [])] },
    agentId := "a1", fileContents := [], conflicts := [], now := 0 }

/-- C10 witness state, pyfuse3 variant. -/
def exC10S : StackedState :=
  { ls := { agents := ["a1"], base := [(["f"], .file [1])],
            agentLayers := [("a1", [])] },
    agentId := "a1", fileContents := [], conflicts := [], now := 0,
    pathToInode := [([], rootInode)], inodeToPath := [(rootInode, [])],
    inodeCounter := 1, openFiles := [], fhCounter := 0 }

/-! ## Helper lemmas -/

theorem alookup_aupdate_self {α β : Type} [DecidableEq α] (k : α) (v : β)
    (l : List (α × β)) : alookup k (aupdate k v l) = some v := by
  induction l with
  | nil => simp [aupdate, alookup]
  | cons hd tl ih =>
    by_cases h : hd.1 = k
    · simp [aupdate, alookup, h]
    · simp [aupdate, alookup, h, ih]

theorem alookup_aupdate_ne {α β : Type} [DecidableEq α] {k k' : α} (v : β)
    (l : List (α × β)) (h : k' ≠ k) :
    alookup k' (aupdate k v l) = alookup k' l := by
  have h' : k ≠ k' := Ne.symm h
  induction l with
  | nil => simp [aupdate, alookup, h']
  | cons hd tl ih =>
    by_cases hh : hd.1 = k
    · simp [aupdate, alookup, hh, h']
    · simp only [aupdate, if_neg hh]
      by_cases hk : hd.1 = k'
      · simp [alookup, hk]
      · simp [alookup, hk, ih]

theorem alookup_aerase_self {α β : Type} [DecidableEq α] (k : α)
    (l : List (α × β)) : alookup k (aerase k l) = none := by
  induction l with
  | nil => simp [aerase, alookup]
  | cons hd tl ih =>
    by_cases h : hd.1 = k
    · simp [aerase, h, ih]
    · simp [aerase, alookup, h, ih]

theorem alookup_aerase_ne {α β : Type} [DecidableEq α] {k k' : α}
    (l : List (α × β)) (h : k' ≠ k) :
    alookup k' (aerase k l) = alookup k' l := by
  have h' : k ≠ k' := Ne.symm h
  induction l with
  | nil => simp [aerase]
  | cons hd tl ih =>
    by_cases hh : hd.1 = k
    · simp [aerase, alookup, hh, h', ih]
    · by_cases hk : hd.1 = k'
      · simp [aerase, alookup, hh, hk, h]
      · simp [aerase, alookup, hh, hk, ih]

theorem checkConflictCore_iff (ls : Layers) (fc : HashIndex) (p : LPath) :
    checkConflictCore ls fc p = true ↔ HasConflict ls fc p := by
  unfold checkConflictCore HasConflict storedHashOf
  cases h : alookup p fc with
  | none => simp
  | some e =>
    cases hh : e.hash with
    | none => simp [hh]
    | some sh =>
      cases hc : currentHashOf ls p with
      | none => simp [hh, hc]
      | some ch => simp [hh, hc]

theorem mem_dedupAcc (a : String) :
    ∀ (l seen : List String), a ∈ dedupAcc seen l ↔ a ∈ l ∧ a ∉ seen := by
  intro l
  induction l with
  | nil => intro seen; simp [dedupAcc]
  | cons x xs ih =>
    intro seen
    by_cases h : x ∈ seen
    · rw [dedupAcc, if_pos h, ih]
      constructor
      · rintro ⟨hm, hn⟩; exact ⟨List.mem_cons_of_mem _ hm, hn⟩
      · rintro ⟨hm, hn⟩
        rcases List.mem_cons.mp hm with rfl | hm'
        · exact absurd h hn
        · exact ⟨hm', hn⟩
    · rw [dedupAcc, if_neg h]
      constructor
      · intro hm
        rcases List.mem_cons.mp hm with rfl | hm'
        · exact ⟨List.mem_cons_self _ _, h⟩
        · obtain ⟨hm2, hn2⟩ := (ih _).mp hm'
          exact ⟨List.mem_cons_of_mem _ hm2,
            fun hs => hn2 (List.mem_cons_of_mem _ hs)⟩
      · rintro ⟨hm, hn⟩
        rcases List.mem_cons.mp hm with rfl | hm'
        · exact List.mem_cons_self _ _
        · by_cases hx : a = x
          · subst hx; exact List.mem_cons_self _ _
          · refine List.mem_cons_of_mem _ ((ih _).mpr ⟨hm', ?_⟩)
            intro hs
            rcases List.mem_cons.mp hs with h1 | h2
            · exact hx h1
            · exact hn h2

theorem dedupAcc_nodup : ∀ (l seen : List String), (dedupAcc seen l).Nodup := by
  intro l
  induction l with
  | nil => intro seen; simp [dedupAcc]
  | cons x xs ih =>
    intro seen
    by_cases h : x ∈ seen
    · simpa [dedupAcc, h] using ih seen
    · simp only [dedupAcc, if_neg h, List.nodup_cons]
      refine ⟨fun hm => ?_, ih _⟩
      exact ((mem_dedupAcc x xs (x :: seen)).mp hm).2 (List.mem_cons_self _ _)

theorem dedupAcc_congr :
    ∀ (l : List String) {seen seen' : List String},
      (∀ a, a ∈ seen ↔ a ∈ seen') → dedupAcc seen l = dedupAcc seen' l := by
  intro l
  induction l with
  | nil => intro seen seen' _; rfl
  | cons x xs ih =>
    intro seen seen' h
    by_cases hx : x ∈ seen
    · simp only [dedupAcc, if_pos hx, if_pos ((h x).mp hx)]
      exact ih h
    · have hx' : x ∉ seen' := fun hh => hx ((h x).mpr hh)
      simp only [dedupAcc, if_neg hx, if_neg hx']
      refine congrArg _ (ih fun a => ?_)
      simp only [List.mem_cons, h a]

theorem dedupAcc_append :
    ∀ (xs ys seen : List String),
      dedupAcc seen (xs ++ ys) =
        dedupAcc seen xs ++ dedupAcc (xs.reverse ++ seen) ys := by
  intro xs
  induction xs with
  | nil => intro ys seen; simp [dedupAcc]
  | cons x xs ih =>
    intro ys seen
    by_cases h : x ∈ seen
    · have h1 : dedupAcc seen ((x :: xs) ++ ys) = dedupAcc seen (xs ++ ys) := by
        rw [List.cons_append, dedupAcc, if_pos h]
      have h2 : dedupAcc seen (x :: xs) = dedupAcc seen xs := by
        rw [dedupAcc, if_pos h]
      rw [h1, h2, ih]
      refine congrArg (dedupAcc seen xs ++ ·) (dedupAcc_congr ys fun b => ?_)
      simp only [List.reverse_cons, List.append_assoc, List.mem_append,
        List.mem_reverse, List.singleton_append, List.mem_cons]
      constructor
      · rintro (hm | hm)
        · exact Or.inl hm
        · exact Or.inr (Or.inr hm)
      · rintro (hm | rfl | hm)
        · exact Or.inl hm
        · exact Or.inr h
        · exact Or.inr hm
    · have h1 : dedupAcc seen ((x :: xs) ++ ys) =
          x :: dedupAcc (x :: seen) (xs ++ ys) := by
        rw [List.cons_append, dedupAcc, if_neg h]
      have h2 : dedupAcc seen (x :: xs) = x :: dedupAcc (x :: seen) xs := by
        rw [dedupAcc, if_neg h]
      have h3 : (x :: xs).reverse ++ seen = xs.reverse ++ (x :: seen) := by
        simp
      rw [h1, h2, ih, h3, List.cons_append]

/-! ## `List.find?` decomposition, for the resolver -/

theorem find?_eq_some_split {α : Type} {f : α → Bool} :
    ∀ {l : List α} {b : α}, l.find? f = some b →
      ∃ l1 l2, l = l1 ++ b :: l2 ∧ f b = true ∧ ∀ x ∈ l1, f x = false := by
  intro l
  induction l with
  | nil => intro b h; simp [List.find?] at h
  | cons x xs ih =>
    intro b h
    cases hx : f x with
    | true =>
      rw [List.find?_cons_of_pos _ hx] at h
      cases h
      exact ⟨[], xs, rfl, hx, by simp⟩
    | false =>
      rw [List.find?_cons_of_neg _ (by simp [hx])] at h
      obtain ⟨l1, l2, hsplit, hb, hl1⟩ := ih h
      exact ⟨x :: l1, l2, by simp [hsplit], hb, by
        intro y hy
        rcases List.mem_cons.mp hy with rfl | hy
        · exact hx
        · exact hl1 y hy⟩

/-! ## Resolver characterisation -/

theorem getResolvedPath_isSome_iff (ls : Layers) (p : LPath) :
    (getResolvedPath ls p).isSome ↔
      (∃ a ∈ ls.agents, existsIn (layerOf ls a) p) ∨ existsIn ls.base p := by
  unfold getResolvedPath
  cases h : ls.agents.reverse.find? (fun a => existsIn (layerOf ls a) p) with
  | some a =>
    have hm := List.find?_some h
    have hmem : a ∈ ls.agents := List.mem_reverse.mp (List.mem_of_find?_eq_some h)
    simp only [Option.isSome_some, true_iff]
    exact Or.inl ⟨a, hmem, hm⟩
  | none =>
    have hall := List.find?_eq_none.mp h
    cases hb : existsIn ls.base p with
    | true => simp [hb]
    | false =>
      simp only [Bool.false_eq_true, if_false, Option.isSome_none, false_iff,
        not_or]
      refine ⟨?_, by simp⟩
      rintro ⟨a, hmem, hex⟩
      have := hall a (List.mem_reverse.mpr hmem)
      simp [hex] at this

theorem getResolvedPath_agent_spec {ls : Layers} {p : LPath} {a : String}
    (h : getResolvedPath ls p = some (.agent a)) :
    ∃ pre post, ls.agents = pre ++ a :: post ∧
      existsIn (layerOf ls a) p = true ∧
      ∀ b ∈ post, existsIn (layerOf ls b) p = false := by
  unfold getResolvedPath at h
  cases hf : ls.agents.reverse.find? (fun a => existsIn (layerOf ls a) p) with
  | some a' =>
    rw [hf] at h
    cases h
    obtain ⟨l1, l2, hsplit, hb, hl1⟩ := find?_eq_some_split hf
    refine ⟨l2.reverse, l1.reverse, ?_, by simpa using hb, ?_⟩
    · have := congrArg List.reverse hsplit
      simpa [List.reverse_append] using this
    · intro b hb'
      simpa using hl1 b (List.mem_reverse.mp hb')
  | none =>
    rw [hf] at h
    by_cases hb : existsIn ls.base p
    · simp [hb] at h
    · simp [hb] at h

theorem getResolvedPath_base_spec {ls : Layers} {p : LPath}
    (h : getResolvedPath ls p = some .base) :
    existsIn ls.base p = true ∧
      ∀ a ∈ ls.agents, existsIn (layerOf ls a) p = false := by
  unfold getResolvedPath at h
  cases hf : ls.agents.reverse.find? (fun a => existsIn (layerOf ls a) p) with
  | some a' => rw [hf] at h; cases h
  | none =>
    rw [hf] at h
    have hall := List.find?_eq_none.mp hf
    by_cases hb : existsIn ls.base p
    · refine ⟨hb, fun a hmem => ?_⟩
      simpa using hall a (List.mem_reverse.mpr hmem)
    · simp [hb] at h

theorem getResolvedPath_topmost {ls : Layers} {p : LPath} {pre : List String}
    {a : String}
    (hag : ls.agents = pre ++ [a]) (hex : existsIn (layerOf ls a) p = true) :
    getResolvedPath ls p = some (.agent a) := by
  unfold getResolvedPath
  have hrev : ls.agents.reverse = a :: pre.reverse := by
    simp [hag, List.reverse_append]
  rw [hrev]
  simp [List.find?, hex]

theorem base_setAgentLayer (ls : Layers) (a : String) (L : Layer) :
    (setAgentLayer ls a L).base = ls.base := rfl

theorem agents_setAgentLayer (ls : Layers) (a : String) (L : Layer) :
    (setAgentLayer ls a L).agents = ls.agents := rfl

theorem layerOf_setAgentLayer_self (ls : Layers) (a : String) (L : Layer) :
    layerOf (setAgentLayer ls a L) a = L := by
  unfold layerOf setAgentLayer
  simp [alookup_aupdate_self]

theorem layerOf_setAgentLayer_ne (ls : Layers) {a b : String} (L : Layer)
    (h : b ≠ a) : layerOf (setAgentLayer ls a L) b = layerOf ls b := by
  unfold layerOf setAgentLayer
  simp [alookup_aupdate_ne _ _ h]

theorem checkConflictCore_of_resolve_none {ls : Layers} {p : LPath}
    (fc : HashIndex) (h : getResolvedPath ls p = none) :
    checkConflictCore ls fc p = false := by
  unfold checkConflictCore currentHashOf
  rw [h]
  cases halo : alookup p fc with
  | none => simp
  | some e => cases hh : e.hash <;> simp [hh]

theorem getResolvedPath_root_isSome (ls : Layers) :
    (getResolvedPath ls []).isSome = true := by
  unfold getResolvedPath
  cases h : ls.agents.reverse.find? (fun a => existsIn (layerOf ls a) []) with
  | some a => rfl
  | none => simp [existsIn]

theorem mkdirParentsGo_preserves {q : LPath} :
    ∀ {qs : List LPath} {L L' : Layer} {b : Bool},
      mkdirParentsGo L qs = (L', b) → alookup q L = some .dir →
      alookup q L' = some .dir := by
  intro qs
  induction qs with
  | nil =>
    intro L L' b h hq
    unfold mkdirParentsGo at h
    cases h
    exact hq
  | cons q0 qs ih =>
    intro L L' b h hq
    unfold mkdirParentsGo at h
    cases he : alookup q0 L with
    | none =>
      rw [he] at h
      refine ih h ?_
      by_cases hqq : q0 = q
      · subst hqq; rw [alookup_aupdate_self]
      · rw [alookup_aupdate_ne _ _ (Ne.symm hqq)]; exact hq
    | some e =>
      cases e with
      | dir => rw [he] at h; exact ih h hq
      | file c =>
        rw [he] at h
        cases h
        exact hq

theorem mkdirParentsGo_dirs :
    ∀ {qs : List LPath} {L L' : Layer}, mkdirParentsGo L qs = (L', true) →
      ∀ q ∈ qs, alookup q L' = some .dir := by
  intro qs
  induction qs with
  | nil => intro L L' _ q hq; cases hq
  | cons q0 qs ih =>
    intro L L' h q hq
    unfold mkdirParentsGo at h
    rcases List.mem_cons.mp hq with rfl | hq'
    · cases he : alookup q L with
      | none =>
        rw [he] at h
        exact mkdirParentsGo_preserves h (alookup_aupdate_self _ _ _)
      | some e =>
        cases e with
        | dir => rw [he] at h; exact mkdirParentsGo_preserves h he
        | file c => rw [he] at h; cases h
    · cases he : alookup q0 L with
      | none => rw [he] at h; exact ih h q hq'
      | some e =>
        cases e with
        | dir => rw [he] at h; exact ih h q hq'
        | file c => rw [he] at h; cases h

theorem mkdirParentsGo_of_dirs :
    ∀ {qs : List LPath} {L : Layer},
      (∀ q ∈ qs, alookup q L = some .dir) → mkdirParentsGo L qs = (L, true) := by
  intro qs
  induction qs with
  | nil => intro L _; rfl
  | cons q0 qs ih =>
    intro L h
    unfold mkdirParentsGo
    rw [h q0 (List.mem_cons_self _ _)]
    exact ih fun q hq => h q (List.mem_cons_of_mem _ hq)

theorem ancestors_shorter :
    ∀ {p q : LPath}, q ∈ ancestors p → q.length < p.length := by
  intro p
  induction p with
  | nil => intro q hq; cases hq
  | cons x rest ih =>
    intro q hq
    cases rest with
    | nil => cases hq
    | cons y t =>
      unfold ancestors at hq
      rcases List.mem_cons.mp hq with rfl | hq'
      · simp [List.length_cons]
      · obtain ⟨q', hq'mem, rfl⟩ := List.mem_map.mp hq'
        have := ih hq'mem
        simpa [List.length_cons] using Nat.succ_lt_succ this

theorem mem_ancestors_ne_self {p q : LPath} (h : q ∈ ancestors p) : q ≠ p :=
  fun hh => absurd (ancestors_shorter h) (by rw [hh]; exact Nat.lt_irrefl _)

/-! ## Claim theorems -/

/-- C4: `resolve(p)` scans agent layers from last in the manifest order
to first, then the base layer, and returns the topmost layer containing
`p`: (1) it succeeds iff some layer contains `p`; (2) a result in agent
`a`'s layer means `a` contains `p` and no agent later in the manifest
does; (3) a result in base means no agent layer contains `p`; (4) with
agent order `[A1, A2]` and `p` present in `A2`, the resolver returns
`A2`'s copy. -/
theorem c4_resolver_topmost (ls : Layers) (p : LPath) :
    ((getResolvedPath ls p).isSome ↔
      (∃ a ∈ ls.agents, existsIn (layerOf ls a) p = true) ∨
        existsIn ls.base p = true) ∧
    (∀ a, getResolvedPath ls p = some (.agent a) →
      ∃ pre post, ls.agents = pre ++ a :: post ∧
        existsIn (layerOf ls a) p = true ∧
        ∀ b ∈ post, existsIn (layerOf ls b) p = false) ∧
    (getResolvedPath ls p = some .base →
      existsIn ls.base p = true ∧
      ∀ a ∈ ls.agents, existsIn (layerOf ls a) p = false) ∧
    (∀ a1 a2, ls.agents = [a1, a2] → existsIn (layerOf ls a2) p = true →
      getResolvedPath ls p = some (.agent a2)) := by
  refine ⟨getResolvedPath_isSome_iff ls p, ?_, ?_, ?_⟩
  · intro a h
    exact getResolvedPath_agent_spec h
  · intro h
    exact getResolvedPath_base_spec h
  · intro a1 a2 hag hex
    exact @getResolvedPath_topmost ls p [a1] a2 (by simp [hag]) hex

/-- C4 witness: with agents `[A1, A2]` and `/p` in base, `A1` and `A2`,
the resolver returns `A2`'s copy. -/
theorem c4_resolver_topmost_witness :
    getResolvedPath exC4 ["p"] = some (.agent "A2") :=
  (c4_resolver_topmost exC4 ["p"]).2.2.2 "A1" "A2" (by decide) (by decide)

/-- C2 (claim false of the code; the spec itself flags the write path as
a source bug, §9 "Write path rebinding"): a write to a base-only `/x`
performs no copy-up.  In the `AgentFS` backend the agent file is created
from the written bytes alone — the byte of `base/x` at the uncovered
offset 3 is lost (`[9,9,9]` instead of the copy-up result
`writeAt [1,2,3,4] 0 [9,9,9] = [9,9,9,4]`) — and in the `StackedFS`
backend the write goes through the handle straight into `base/x`, which
the claim requires to stay byte-for-byte unchanged, while no agent copy
appears at all. -/
theorem c2_copyup_missing :
    ((agentWrite exC2 ["x"] [9, 9, 9] 0).2 = .ok 3 ∧
      alookup ["x"] (layerOf (agentWrite exC2 ["x"] [9, 9, 9] 0).1.ls "a1")
        = some (.file [9, 9, 9]) ∧
      (agentWrite exC2 ["x"] [9, 9, 9] 0).1.ls.base = exC2.ls.base ∧
      writeAt [1, 2, 3, 4] 0 [9, 9, 9] = [9, 9, 9, 4] ∧
      ([9, 9, 9] : Bytes) ≠ [9, 9, 9, 4]) ∧
    ((stackedOpen exC2Sa 2).2 = .ok 1 ∧
      alookup 1 exC2Sb.openFiles = some (.base, ["x"]) ∧
      (stackedWrite exC2Sb 1 0 [9, 9, 9]).2 = .ok 3 ∧
      (stackedWrite exC2Sb 1 0 [9, 9, 9]).1.ls.base
        = [(["x"], .file [9, 9, 9, 4])] ∧
      (stackedWrite exC2Sb 1 0 [9, 9, 9]).1.ls.base ≠ exC2S.ls.base ∧
      alookup ["x"] (layerOf (stackedWrite exC2Sb 1 0 [9, 9, 9]).1.ls "a1")
        = none) := by
  decide

/-- C10: a rename whose old path resolves nowhere and has no copy in the
active agent's layer silently succeeds without touching any state, in
both backends. -/
theorem c10_rename_missing_noop :
    (∀ (s : AgentState) (old new : LPath),
      getResolvedPath s.ls old = none →
      alookup old (layerOf s.ls s.agentId) = none →
      agentRename s old new = (s, .ok ())) ∧
    (∀ (s : StackedState) (pOld : Nat) (nOld : String) (pNew : Nat)
        (nNew : String) (opp : LPath),
      alookup pOld s.inodeToPath = some opp →
      (alookup pNew s.inodeToPath).isSome = true →
      getResolvedPath s.ls (opp ++ [nOld]) = none →
      alookup (opp ++ [nOld]) (layerOf s.ls s.agentId) = none →
      stackedRename s pOld nOld pNew nNew = (s, .ok ())) := by
  constructor
  · intro s old new hres hal
    have hold : old ≠ [] := by
      intro hh
      subst hh
      have := getResolvedPath_root_isSome s.ls
      rw [hres] at this
      simp at this
    have hb : checkConflict s old = false :=
      checkConflictCore_of_resolve_none _ hres
    unfold agentRename
    rw [hb]
    simp [hres, hal, hold]
  · intro s pOld nOld pNew nNew opp hpo hpn hres hal
    have hn : opp ++ [nOld] ≠ [] := by simp
    have hb : checkConflictS s (opp ++ [nOld]) = false :=
      checkConflictCore_of_resolve_none _ hres
    obtain ⟨npp, hnpp⟩ := Option.isSome_iff_exists.mp hpn
    unfold stackedRename
    rw [hpo, hnpp]
    simp [hb, hres, hal, hn]

/-- C10 witness: renaming the non-existent `/ghost` succeeds and changes
nothing, in both backends. -/
theorem c10_rename_missing_noop_witness :
    agentRename exC10 ["ghost"] ["new2"] = (exC10, .ok ()) ∧
    stackedRename exC10S 1 "ghost" 1 "new2" = (exC10S, .ok ()) :=
  ⟨c10_rename_missing_noop.1 exC10 ["ghost"] ["new2"] (by decide) (by decide),
    c10_rename_missing_noop.2 exC10S 1 "ghost" 1 "new2" [] (by decide)
      (by decide) (by decide) (by decide)⟩

/-- C1: a write (and a rename) fails with EBUSY and appends exactly one
conflict record `{path, active_agent, timestamp}` — leaving every layer
and the hash index unchanged — precisely when the hash index holds a
non-empty stored hash for the path, the currently resolved physical file
hashes to a non-empty value, and the two differ; otherwise no record is
appended and the operation proceeds past the gate (its result is never
EBUSY). -/
theorem c1_conflict_gate (s : AgentState) (p old new : LPath)
    (data : Bytes) (off : Nat) :
    (HasConflict s.ls s.fileContents p →
      (agentWrite s p data off).2 = .error .EBUSY ∧
      (agentWrite s p data off).1.conflicts
        = s.conflicts ++ [⟨p, s.agentId, s.now⟩] ∧
      (agentWrite s p data off).1.ls = s.ls ∧
      (agentWrite s p data off).1.fileContents = s.fileContents) ∧
    (¬ HasConflict s.ls s.fileContents p →
      (agentWrite s p data off).2 ≠ .error .EBUSY ∧
      (agentWrite s p data off).1.conflicts = s.conflicts) ∧
    (HasConflict s.ls s.fileContents old →
      (agentRename s old new).2 = .error .EBUSY ∧
      (agentRename s old new).1.conflicts
        = s.conflicts ++ [⟨old, s.agentId, s.now⟩] ∧
      (agentRename s old new).1.ls = s.ls ∧
      (agentRename s old new).1.fileContents = s.fileContents) ∧
    (¬ HasConflict s.ls s.fileContents old →
      (agentRename s old new).2 ≠ .error .EBUSY ∧
      (agentRename s old new).1.conflicts = s.conflicts) := by
  refine ⟨?_, ?_, ?_, ?_⟩
  · intro hc
    have hb : checkConflict s p = true :=
      (checkConflictCore_iff s.ls s.fileContents p).mpr hc
    unfold agentWrite
    rw [hb]
    simp [recordConflict]
  · intro hc
    have hb : checkConflict s p = false := by
      cases hcc : checkConflict s p with
      | false => rfl
      | true =>
        exact absurd ((checkConflictCore_iff s.ls s.fileContents p).mp hcc) hc
    unfold agentWrite
    rw [hb]
    simp only [Bool.false_eq_true, if_false]
    split
    · simp
    · split
      · simp
      · split <;> simp
  · intro hc
    have hb : checkConflict s old = true :=
      (checkConflictCore_iff s.ls s.fileContents old).mpr hc
    unfold agentRename
    rw [hb]
    simp [recordConflict]
  · intro hc
    have hb : checkConflict s old = false := by
      cases hcc : checkConflict s old with
      | false => rfl
      | true =>
        exact absurd ((checkConflictCore_iff s.ls s.fileContents old).mp hcc) hc
    unfold agentRename
    rw [hb]
    simp only [Bool.false_eq_true, if_false]
    split
    · split
      · simp
      · split <;> simp
    · simp

/-- C1 witness: in `exC5` (stored hash `sha256 [7]`, resolved base copy
hashing to `sha256 [8]`) a write fails EBUSY and appends exactly the one
record. -/
theorem c1_conflict_gate_witness :
    (agentWrite exC5 ["p"] [9] 0).2 = .error .EBUSY ∧
    (agentWrite exC5 ["p"] [9] 0).1.conflicts = [⟨["p"], "a1", 0⟩] ∧
    (agentWrite exC5 ["p"] [9] 0).1.ls = exC5.ls := by
  have hconf : HasConflict exC5.ls exC5.fileContents ["p"] :=
    ⟨sha256 [7], sha256 [8], rfl, rfl, by decide⟩
  have h := (c1_conflict_gate exC5 ["p"] ["p"] ["q"] [9] 0).1 hconf
  exact ⟨h.1, by rw [h.2.1]; rfl, h.2.2.1⟩

/-- C5 counterexample: the conflict gate runs *before* the cross-device
check, so in `exC5` — where the old path resolves to `base`, a layer
other than the active agent's — the rename fails EBUSY (not EXDEV) and
mutates state by appending a conflict record. -/
theorem c5_counterexample :
    getResolvedPath exC5.ls ["p"] = some .base ∧
    (agentRename exC5 ["p"] ["q"]).2 = .error .EBUSY ∧
    (agentRename exC5 ["p"] ["q"]).2 ≠ .error .EXDEV ∧
    (agentRename exC5 ["p"] ["q"]).1.conflicts ≠ exC5.conflicts := by
  decide

/-- C5 (amended): when the conflict detector does **not** fire on the
old path, a rename whose old path resolves to a layer other than the
active agent's fails with EXDEV and returns the state unchanged — in
both backends. -/
theorem c5_rename_exdev :
    (∀ (s : AgentState) (old new : LPath) (r : LayerRef),
      ¬ HasConflict s.ls s.fileContents old →
      getResolvedPath s.ls old = some r →
      r ≠ .agent s.agentId →
      agentRename s old new = (s, .error .EXDEV)) ∧
    (∀ (s : StackedState) (pOld : Nat) (nOld : String) (pNew : Nat)
        (nNew : String) (opp npp : LPath) (r : LayerRef),
      alookup pOld s.inodeToPath = some opp →
      alookup pNew s.inodeToPath = some npp →
      ¬ HasConflict s.ls s.fileContents (opp ++ [nOld]) →
      getResolvedPath s.ls (opp ++ [nOld]) = some r →
      r ≠ .agent s.agentId →
      stackedRename s pOld nOld pNew nNew = (s, .error .EXDEV)) := by
  constructor
  · intro s old new r hc hres hr
    have hb : checkConflict s old = false := by
      cases hcc : checkConflict s old with
      | false => rfl
      | true =>
        exact absurd ((checkConflictCore_iff s.ls s.fileContents old).mp hcc) hc
    unfold agentRename
    rw [hb]
    simp [hres, hr]
  · intro s pOld nOld pNew nNew opp npp r hpo hpn hc hres hr
    have hb : checkConflictS s (opp ++ [nOld]) = false := by
      cases hcc : checkConflictS s (opp ++ [nOld]) with
      | false => rfl
      | true =>
        exact absurd
          ((checkConflictCore_iff s.ls s.fileContents (opp ++ [nOld])).mp hcc) hc
    unfold stackedRename
    rw [hpo, hpn]
    simp [hb, hres, hr]

/-- C5 witness: with no stored hash the gate is quiet, and the rename of
the base-only `/p` fails EXDEV with the state unchanged. -/
theorem c5_rename_exdev_witness :
    agentRename exC5W ["p"] ["q"] = (exC5W, .error .EXDEV) := by
  refine c5_rename_exdev.1 exC5W ["p"] ["q"] .base ?_ (by decide) (by decide)
  rintro ⟨sh, ch, hsh, -, -⟩
  have hnone : storedHashOf exC5W.fileContents ["p"] = none := rfl
  rw [hnone] at hsh
  cases hsh

/-- C9 counterexample: the source tests existence with `Path.exists()`
(stat, following symlinks), not lstat, so the dangling symlink
`agents/a1/p → /q` — present under lstat semantics — does **not**
resolve: the resolver returns none instead of the symlink entry. -/
theorem c9_counterexample :
    sExistsLstat (sLayerOf exC9 "a1") ["p"] = true ∧
    sGetResolvedPath 40 exC9 ["p"] = none := by
  decide

/-- C9 (amended): the resolver's existence test follows symlinks (stat
semantics): (1) at a symlink the test recurses into the target; (2) a
dangling symlink does not count as present, at any fuel; (3) a symlink
whose target exists in the topmost layer counts as present and the
resolver returns the symlink's own entry in that layer (so `readlink`
still sees the original target for non-dangling links). -/
theorem c9_resolver_stat :
    (∀ (L : SLayer) (fuel : Nat) (p t : LPath),
      p ≠ [] → alookup p L = some (.slink t) →
      sExistsStat L (fuel + 1) p = sExistsStat L fuel t) ∧
    (∀ (L : SLayer) (fuel : Nat) (p t : LPath),
      p ≠ [] → alookup p L = some (.slink t) →
      t ≠ [] → alookup t L = none →
      sExistsStat L fuel p = false) ∧
    (∀ (sl : SLayers) (fuel : Nat) (p t : LPath) (pre : List String)
        (a : String) (c : Bytes),
      sl.agents = pre ++ [a] →
      p ≠ [] → alookup p (sLayerOf sl a) = some (.slink t) →
      alookup t (sLayerOf sl a) = some (.sfile c) →
      sGetResolvedPath (fuel + 2) sl p = some (.agent a)) := by
  have hfollow : ∀ (L : SLayer) (fuel : Nat) (p t : LPath),
      p ≠ [] → alookup p L = some (.slink t) →
      sExistsStat L (fuel + 1) p = sExistsStat L fuel t := by
    intro L fuel p t hp hal
    unfold sExistsStat
    simp only [hp, hal, decide_eq_true_eq, if_false, Bool.false_or,
      decide_False]
    cases fuel <;> rfl
  refine ⟨hfollow, ?_, ?_⟩
  · intro L fuel p t hp hal ht halt
    cases fuel with
    | zero => rfl
    | succ n =>
      rw [hfollow L n p t hp hal]
      cases n with
      | zero => rfl
      | succ m =>
        unfold sExistsStat
        simp [ht, halt]
  · intro sl fuel p t pre a c hag hp hal halt
    have hex : sExistsStat (sLayerOf sl a) (fuel + 2) p = true := by
      rw [hfollow (sLayerOf sl a) (fuel + 1) p t hp hal]
      unfold sExistsStat
      by_cases htnil : t = []
      · simp [htnil]
      · simp [htnil, halt]
    unfold sGetResolvedPath
    have hrev : sl.agents.reverse = a :: pre.reverse := by
      simp [hag, List.reverse_append]
    rw [hrev]
    simp [List.find?, hex]

/-- C9 witness: a symlink whose target exists resolves to the agent's
layer (entry identity preserved), while the dangling chain `exC9` tests
false under the stat semantics at the same fuel. -/
theorem c9_resolver_stat_witness :
    sGetResolvedPath 40 exC9W ["p"] = some (.agent "a1") ∧
    sExistsStat (sLayerOf exC9 "a1") 40 ["p"] = false :=
  ⟨c9_resolver_stat.2.2 exC9W 38 ["p"] ["q"] [] "a1" [3] (by decide) (by decide)
      (by decide) (by decide),
    c9_resolver_stat.2.1 (sLayerOf exC9 "a1") 40 ["p"] ["q"] (by decide)
      (by decide) (by decide) (by decide)⟩

/-- C6 counterexample: enumeration emits upper-layer names in **reverse**
manifest order (topmost agent first), not manifest order: with manifest
`["a1", "a2"]`, `a1` holding `/x`, `a2` holding `/y` and base holding
`/x` and `/b`, the merge is `["y", "x", "b"]`, not the manifest-order
`["x", "y", "b"]`. -/
theorem c6_counterexample :
    getAllEntries exC6 [] = ["y", "x", "b"] ∧
    getAllEntries exC6 [] ≠ ["x", "y", "b"] := by
  decide

/-- C6 (amended): `enumerate(d)` returns each basename at most once;
a name is emitted iff some layer's directory `d` lists it; the output is
the deduplicated upper-layer listing — agent layers in reverse manifest
order, topmost first — followed by exactly the base names not shadowed
by any agent layer (first occurrence wins); and the attributes of an
emitted entry are read from the topmost layer containing it (the
resolver applied to `d ++ [n]`). -/
theorem c6_enumeration (ls : Layers) (d : LPath) :
    (getAllEntries ls d).Nodup ∧
    (∀ n, n ∈ getAllEntries ls d ↔
      n ∈ upperListing ls d ∨ n ∈ baseListing ls d) ∧
    (∃ rest, getAllEntries ls d = dedupAcc [] (upperListing ls d) ++ rest ∧
      ∀ n, n ∈ rest ↔ n ∈ baseListing ls d ∧ n ∉ upperListing ls d) ∧
    (∀ n a, n ∈ getAllEntries ls d →
      getResolvedPath ls (d ++ [n]) = some (.agent a) →
      ∃ pre post, ls.agents = pre ++ a :: post ∧
        existsIn (layerOf ls a) (d ++ [n]) = true ∧
        ∀ b ∈ post, existsIn (layerOf ls b) (d ++ [n]) = false) := by
  refine ⟨dedupAcc_nodup _ _, ?_, ?_, ?_⟩
  · intro n
    unfold getAllEntries
    rw [mem_dedupAcc]
    simp [List.mem_append]
  · refine ⟨dedupAcc ((upperListing ls d).reverse ++ []) (baseListing ls d),
      ?_, ?_⟩
    · unfold getAllEntries
      exact dedupAcc_append (upperListing ls d) (baseListing ls d) []
    · intro n
      rw [mem_dedupAcc]
      simp [List.mem_append, List.mem_reverse]
  · intro n a _ hres
    exact getResolvedPath_agent_spec hres

/-- C6 witness: in `exC6`, `/x` is emitted and its backing resolves to
agent `a1`, which indeed holds it while no later agent does. -/
theorem c6_enumeration_witness :
    ∃ pre post, exC6.agents = pre ++ "a1" :: post ∧
      existsIn (layerOf exC6 "a1") ["x"] = true ∧
      ∀ b ∈ post, existsIn (layerOf exC6 b) ["x"] = false := by
  have h := (c6_enumeration exC6 []).2.2.2 "x" "a1" (by decide) (by decide)
  simpa using h

theorem alookup_removeEntryRef_self (ls : Layers) (r : LayerRef) (p : LPath) :
    alookup p (layerFor (removeEntryRef ls r p) r) = none := by
  cases r with
  | base => simp [removeEntryRef, layerFor, alookup_aerase_self]
  | agent a =>
    simp [removeEntryRef, layerFor, layerOf_setAgentLayer_self,
      alookup_aerase_self]

/-- C3 counterexample: in the `StackedFS` backend, unlinking the
base-only `/f` deletes the **base** copy (`resolved_path.unlink()`), so
a layer other than the active agent's is modified and `/f` does not stay
visible. -/
theorem c3_counterexample :
    (stackedUnlink exC3 1 "f").2 = .ok () ∧
    exC3.ls.base = [(["f"], .file [1])] ∧
    (stackedUnlink exC3 1 "f").1.ls.base = [] ∧
    getResolvedPath (stackedUnlink exC3 1 "f").1.ls ["f"] = none := by
  decide

/-- C3 (amended): in the `AgentFS` backend, unlink touches only the
active agent's layer — the base layer and every other agent layer are
unchanged by any outcome, a successful unlink removes the path from the
active layer and drops the hash-index entry, and a copy in the base
layer keeps the path resolvable.  In the `StackedFS` backend, when the
active layer has **no** copy, unlink instead deletes the resolver-chosen
lower-layer copy (and drops the inode mapping and hash entry). -/
theorem c3_unlink_layers :
    (∀ (s : AgentState) (p : LPath),
      (agentUnlink s p).1.ls.base = s.ls.base ∧
      (∀ b, b ≠ s.agentId →
        layerOf (agentUnlink s p).1.ls b = layerOf s.ls b) ∧
      ((agentUnlink s p).2 = .ok () →
        alookup p (layerOf (agentUnlink s p).1.ls s.agentId) = none ∧
        alookup p (agentUnlink s p).1.fileContents = none) ∧
      (existsIn s.ls.base p = true →
        (getResolvedPath (agentUnlink s p).1.ls p).isSome = true)) ∧
    (∀ (s : StackedState) (pInode : Nat) (n : String) (pp : LPath)
        (r : LayerRef) (c : Bytes),
      alookup pInode s.inodeToPath = some pp →
      alookup (pp ++ [n]) (layerOf s.ls s.agentId) = none →
      getResolvedPath s.ls (pp ++ [n]) = some r →
      alookup (pp ++ [n]) (layerFor s.ls r) = some (.file c) →
      (stackedUnlink s pInode n).2 = .ok () ∧
      alookup (pp ++ [n]) (layerFor (stackedUnlink s pInode n).1.ls r) = none ∧
      alookup (pp ++ [n]) (stackedUnlink s pInode n).1.pathToInode = none ∧
      alookup (pp ++ [n]) (stackedUnlink s pInode n).1.fileContents = none) := by
  constructor
  · intro s p
    have hmain :
        (agentUnlink s p).1.ls.base = s.ls.base ∧
        (∀ b, b ≠ s.agentId →
          layerOf (agentUnlink s p).1.ls b = layerOf s.ls b) ∧
        ((agentUnlink s p).2 = .ok () →
          alookup p (layerOf (agentUnlink s p).1.ls s.agentId) = none ∧
          alookup p (agentUnlink s p).1.fileContents = none) := by
      cases hres : getResolvedPath s.ls p with
      | none =>
        have he : agentUnlink s p = (s, .error .ENOENT) := by
          unfold agentUnlink
          rw [hres]
        rw [he]
        exact ⟨rfl, fun b _ => rfl, fun hok => by cases hok⟩
      | some r =>
        cases halo : alookup p (layerOf s.ls s.agentId) with
        | some e =>
          cases e with
          | file c =>
            have he : agentUnlink s p =
                ({ s with
                    ls := setAgentLayer s.ls s.agentId
                      (aerase p (layerOf s.ls s.agentId)),
                    fileContents := aerase p s.fileContents },
                  .ok ()) := by
              unfold agentUnlink
              rw [hres]
              simp only [halo]
            rw [he]
            refine ⟨rfl, fun b hb => layerOf_setAgentLayer_ne _ _ hb,
              fun _ => ⟨?_, alookup_aerase_self _ _⟩⟩
            rw [layerOf_setAgentLayer_self]
            exact alookup_aerase_self _ _
          | dir =>
            have he : agentUnlink s p = (s, .error .EISDIR) := by
              unfold agentUnlink
              rw [hres]
              simp only [halo]
            rw [he]
            exact ⟨rfl, fun b _ => rfl, fun hok => by cases hok⟩
        | none =>
          by_cases hp : p = []
          · subst hp
            have he : agentUnlink s [] = (s, .error .EISDIR) := by
              unfold agentUnlink
              rw [hres]
              simp [halo]
            rw [he]
            exact ⟨rfl, fun b _ => rfl, fun hok => by cases hok⟩
          · have he : agentUnlink s p =
                ({ s with fileContents := aerase p s.fileContents }, .ok ()) := by
              unfold agentUnlink
              rw [hres]
              simp only [halo, hp, if_false]
            rw [he]
            exact ⟨rfl, fun b _ => rfl,
              fun _ => ⟨halo, alookup_aerase_self _ _⟩⟩
    refine ⟨hmain.1, hmain.2.1, hmain.2.2, ?_⟩
    intro hbex
    rw [getResolvedPath_isSome_iff (agentUnlink s p).1.ls p, hmain.1]
    exact Or.inr hbex
  · intro s pInode n pp r c hpi hal hres hfile
    unfold stackedUnlink
    simp only [hpi, hres, hal, hfile]
    cases hmap : alookup (pp ++ [n]) s.pathToInode with
    | none =>
      simp [hmap, alookup_removeEntryRef_self, alookup_aerase_self]
    | some i =>
      simp [hmap, alookup_removeEntryRef_self, alookup_aerase_self]

/-- C3 witness: AgentFS: unlinking `/f` (copies in base and `a1`) leaves
base intact, removes the `a1` copy and stays resolvable; StackedFS: the
base-only `/f` of `exC3` is deleted from base. -/
theorem c3_unlink_layers_witness :
    (agentUnlink exC3A ["f"]).1.ls.base = exC3A.ls.base ∧
    alookup ["f"] (layerOf (agentUnlink exC3A ["f"]).1.ls "a1") = none ∧
    (getResolvedPath (agentUnlink exC3A ["f"]).1.ls ["f"]).isSome = true ∧
    alookup ["f"] (layerFor (stackedUnlink exC3 1 "f").1.ls .base) = none := by
  have hA := c3_unlink_layers.1 exC3A ["f"]
  have hB := c3_unlink_layers.2 exC3 1 "f" [] .base [1] (by decide) (by decide)
    (by decide) (by decide)
  exact ⟨hA.1, (hA.2.2.1 (by decide)).1, hA.2.2.2 (by decide), hB.2.1⟩

theorem agentWrite_ok_spec {s s1 : AgentState} {p : LPath} {data : Bytes}
    {off n : Nat} (h : agentWrite s p data off = (s1, .ok n)) :
    s1.agentId = s.agentId ∧ s1.conflicts = s.conflicts ∧ s1.now = s.now ∧
    p ≠ [] ∧
    ∃ c, alookup p (layerOf s1.ls s.agentId) = some (.file c) ∧
      alookup p s1.fileContents = some ⟨some (sha256 c), s.agentId⟩ ∧
      ∀ q ∈ ancestors p, alookup q (layerOf s1.ls s.agentId) = some .dir := by
  unfold agentWrite at h
  by_cases hb : checkConflict s p = true
  · rw [if_pos hb] at h
    simp at h
  · rw [if_neg hb] at h
    by_cases hp : p = []
    · rw [if_pos hp] at h
      simp at h
    · rw [if_neg hp] at h
      rcases hm : mkdirParentsGo (layerOf s.ls s.agentId) (ancestors p)
        with ⟨L', b⟩
      cases b with
      | false =>
        simp only [hm] at h
        simp at h
      | true =>
        simp only [hm] at h
        cases halo : alookup p L' with
        | some e =>
          cases e with
          | dir =>
            rw [halo] at h
            simp at h
          | file old =>
            rw [halo] at h
            injection h with h1 h2
            subst h1
            refine ⟨rfl, rfl, rfl, hp, writeAt old off data, ?_, ?_, ?_⟩
            · rw [layerOf_setAgentLayer_self]
              exact alookup_aupdate_self _ _ _
            · exact alookup_aupdate_self _ _ _
            · intro q hq
              rw [layerOf_setAgentLayer_self,
                alookup_aupdate_ne _ _ (mem_ancestors_ne_self hq)]
              exact mkdirParentsGo_dirs hm q hq
        | none =>
          rw [halo] at h
          injection h with h1 h2
          subst h1
          refine ⟨rfl, rfl, rfl, hp, data, ?_, ?_, ?_⟩
          · rw [layerOf_setAgentLayer_self]
            exact alookup_aupdate_self _ _ _
          · exact alookup_aupdate_self _ _ _
          · intro q hq
            rw [layerOf_setAgentLayer_self,
              alookup_aupdate_ne _ _ (mem_ancestors_ne_self hq)]
            exact mkdirParentsGo_dirs hm q hq

/-- C8 counterexample: the identical-rewrite law fails when a layer
above the active agent's shadows the path.  In `exC8` (active `a1`,
manifest `["a1", "a2"]`, `agents/a2/p = [5]`) the first `write /p = [9]`
succeeds, but the second identical write — with no intervening
operation — resolves `/p` to `a2`'s copy, sees a hash differing from the
stored one, fails EBUSY and appends a conflict record. -/
theorem c8_counterexample :
    (agentWrite exC8 ["p"] [9] 0).2 = .ok 1 ∧
    (agentWrite exC8a ["p"] [9] 0).2 = .error .EBUSY ∧
    (agentWrite exC8a ["p"] [9] 0).1.conflicts = [⟨["p"], "a1", 0⟩] := by
  decide

/-- C8 (amended): `write(p, X); write(p, X)` by the same agent with no
intervening operations succeeds on the second write with no conflict
record appended, **provided** the resolver picks the active agent's
copy after the first write (in particular whenever no layer above the
active agent's contains `p`). -/
theorem c8_write_write_idempotent :
    ∀ (s s1 : AgentState) (p : LPath) (data : Bytes) (off n : Nat),
      agentWrite s p data off = (s1, .ok n) →
      getResolvedPath s1.ls p = some (.agent s.agentId) →
      (agentWrite s1 p data off).2 = .ok data.length ∧
      (agentWrite s1 p data off).1.conflicts = s1.conflicts := by
  intro s s1 p data off n h hres
  obtain ⟨hid, -, -, hp, c, hlay, hfc, hanc⟩ := agentWrite_ok_spec h
  have hcur : currentHashOf s1.ls p = some (sha256 c) := by
    unfold currentHashOf
    rw [hres]
    simp [layerFor, hlay, hashOfEntry]
  have hb : checkConflict s1 p = false := by
    unfold checkConflict checkConflictCore
    rw [hfc, hcur]
    simp
  unfold agentWrite
  rw [hb]
  simp only [Bool.false_eq_true, if_false]
  rw [if_neg hp]
  have hmk : mkdirParentsGo (layerOf s1.ls s.agentId) (ancestors p)
      = (layerOf s1.ls s.agentId, true) :=
    mkdirParentsGo_of_dirs hanc
  simp only [hid, hmk, hlay]
  simp

/-- C8 witness: with a single agent over a base copy, two identical
writes of `[9]` to `/p` both succeed and the second appends no conflict
record. -/
theorem c8_write_write_idempotent_witness :
    (agentWrite exC8Wa ["p"] [9] 0).2 = .ok 1 ∧
    (agentWrite exC8Wa ["p"] [9] 0).1.conflicts = exC8Wa.conflicts := by
  have h := c8_write_write_idempotent exC8W exC8Wa ["p"] [9] 0 1 (by decide)
    (by decide)
  simpa using h

theorem mapsInverse_aupdate_fresh {pi : List (LPath × Nat)}
    {ip : List (Nat × LPath)} {c : Nat} {p : LPath}
    (hinv : MapsInverse pi ip) (hbound : InodeBound pi c)
    (hnot : alookup p pi = none) :
    MapsInverse (aupdate p (c + 1) pi) (aupdate (c + 1) p ip) ∧
    InodeBound (aupdate p (c + 1) pi) (c + 1) := by
  constructor
  · intro q j
    by_cases hq : q = p
    · subst hq
      rw [alookup_aupdate_self]
      by_cases hj : j = c + 1
      · subst hj
        rw [alookup_aupdate_self]
        simp
      · rw [alookup_aupdate_ne _ _ hj]
        constructor
        · intro hh
          injection hh with hh'
          exact absurd hh'.symm hj
        · intro hh
          have h2 := (hinv q j).mpr hh
          rw [hnot] at h2
          cases h2
    · rw [alookup_aupdate_ne _ _ hq]
      by_cases hj : j = c + 1
      · subst hj
        rw [alookup_aupdate_self]
        constructor
        · intro hh
          have := hbound q _ hh
          omega
        · intro hh
          injection hh with hh'
          exact absurd hh'.symm hq
      · rw [alookup_aupdate_ne _ _ hj]
        exact hinv q j
  · intro q j hh
    by_cases hq : q = p
    · subst hq
      rw [alookup_aupdate_self] at hh
      injection hh with hh'
      omega
    · rw [alookup_aupdate_ne _ _ hq] at hh
      have := hbound q j hh
      omega

theorem mapsInverse_drop {pi : List (LPath × Nat)} {ip : List (Nat × LPath)}
    {p : LPath} {i : Nat}
    (hinv : MapsInverse pi ip) (hpi : alookup p pi = some i) :
    MapsInverse (aerase p pi) (aerase i ip) := by
  intro q j
  by_cases hq : q = p
  · subst hq
    rw [alookup_aerase_self]
    constructor
    · intro hh
      cases hh
    · intro hh
      by_cases hj : j = i
      · subst hj
        rw [alookup_aerase_self] at hh
        cases hh
      · rw [alookup_aerase_ne _ hj] at hh
        have h2 := (hinv q j).mpr hh
        rw [hpi] at h2
        injection h2 with h2'
        exact absurd h2'.symm hj
  · rw [alookup_aerase_ne _ hq]
    by_cases hj : j = i
    · rw [hj, alookup_aerase_self]
      constructor
      · intro hh
        have h2 := (hinv q i).mp hh
        have h3 := (hinv p i).mp hpi
        rw [h2] at h3
        injection h3 with h3'
        exact absurd h3' hq
      · intro hh
        cases hh
    · rw [alookup_aerase_ne _ hj]
      exact hinv q j

theorem mapsInverse_rename {pi : List (LPath × Nat)} {ip : List (Nat × LPath)}
    {oldP newP : LPath} {i : Nat}
    (hinv : MapsInverse pi ip) (hold : alookup oldP pi = some i)
    (hnew : alookup newP pi = none) :
    MapsInverse (aupdate newP i (aerase oldP pi)) (aupdate i newP ip) := by
  have hne : oldP ≠ newP := by
    intro hh
    rw [hh, hnew] at hold
    cases hold
  intro q j
  by_cases hq : q = newP
  · subst hq
    rw [alookup_aupdate_self]
    by_cases hj : j = i
    · subst hj
      rw [alookup_aupdate_self]
      simp
    · rw [alookup_aupdate_ne _ _ hj]
      constructor
      · intro hh
        injection hh with hh'
        exact absurd hh'.symm hj
      · intro hh
        have h2 := (hinv q j).mpr hh
        rw [hnew] at h2
        cases h2
  · rw [alookup_aupdate_ne _ _ hq]
    by_cases hq2 : q = oldP
    · subst hq2
      rw [alookup_aerase_self]
      by_cases hj : j = i
      · subst hj
        rw [alookup_aupdate_self]
        constructor
        · intro hh
          cases hh
        · intro hh
          injection hh with hh'
          exact absurd hh'.symm hq
      · rw [alookup_aupdate_ne _ _ hj]
        constructor
        · intro hh
          cases hh
        · intro hh
          have h2 := (hinv q j).mpr hh
          rw [hold] at h2
          injection h2 with h2'
          exact absurd h2'.symm hj
    · rw [alookup_aerase_ne _ hq2]
      by_cases hj : j = i
      · rw [hj, alookup_aupdate_self]
        constructor
        · intro hh
          have h2 := (hinv q i).mp hh
          have h3 := (hinv oldP i).mp hold
          rw [h2] at h3
          injection h3 with h3'
          exact absurd h3' hq2
        · intro hh
          injection hh with hh'
          exact absurd hh'.symm hq
      · rw [alookup_aupdate_ne _ _ hj]
        exact hinv q j

theorem inodeBound_aerase {pi : List (LPath × Nat)} {c : Nat} {p : LPath}
    (h : InodeBound pi c) : InodeBound (aerase p pi) c := by
  intro q j hh
  by_cases hq : q = p
  · subst hq
    rw [alookup_aerase_self] at hh
    cases hh
  · rw [alookup_aerase_ne _ hq] at hh
    exact h q j hh

theorem inodeBound_rename {pi : List (LPath × Nat)} {c : Nat}
    {oldP newP : LPath} {i : Nat}
    (h : InodeBound pi c) (hold : alookup oldP pi = some i) :
    InodeBound (aupdate newP i (aerase oldP pi)) c := by
  intro q j hh
  by_cases hq : q = newP
  · subst hq
    rw [alookup_aupdate_self] at hh
    injection hh with hh'
    exact hh' ▸ h oldP i hold
  · rw [alookup_aupdate_ne _ _ hq] at hh
    exact inodeBound_aerase h q j hh

theorem inodeInv_of_eq {s t : StackedState} (h : InodeInv s)
    (h1 : t.pathToInode = s.pathToInode) (h2 : t.inodeToPath = s.inodeToPath)
    (h3 : t.inodeCounter = s.inodeCounter) : InodeInv t := by
  unfold InodeInv at h ⊢
  rw [h1, h2, h3]
  exact h

theorem inodeInv_drop_state {s t : StackedState} {fp : LPath} {i : Nat}
    (h : InodeInv s) (hm : alookup fp s.pathToInode = some i)
    (h1 : t.pathToInode = aerase fp s.pathToInode)
    (h2 : t.inodeToPath = aerase i s.inodeToPath)
    (h3 : t.inodeCounter = s.inodeCounter) : InodeInv t := by
  constructor
  · rw [h1, h2]
    exact mapsInverse_drop h.1 hm
  · rw [h1, h3]
    exact inodeBound_aerase h.2

theorem inodeInv_rename_state {s t : StackedState} {fp np : LPath} {i : Nat}
    (h : InodeInv s) (hold : alookup fp s.pathToInode = some i)
    (hnew : alookup np s.pathToInode = none)
    (h1 : t.pathToInode = aupdate np i (aerase fp s.pathToInode))
    (h2 : t.inodeToPath = aupdate i np s.inodeToPath)
    (h3 : t.inodeCounter = s.inodeCounter) : InodeInv t := by
  constructor
  · rw [h1, h2]
    exact mapsInverse_rename h.1 hold hnew
  · rw [h1, h3]
    exact inodeBound_rename h.2 hold

theorem inodeInv_add (s : StackedState) (p : LPath) (h : InodeInv s) :
    InodeInv (addPathToInodeMap s p).1 := by
  unfold addPathToInodeMap
  cases hm : alookup p s.pathToInode with
  | some i =>
    simp only [hm]
    exact h
  | none =>
    simp only [hm]
    obtain ⟨h1, h2⟩ := mapsInverse_aupdate_fresh h.1 h.2 hm
    exact ⟨h1, h2⟩

theorem inodeInv_getInode (s : StackedState) (p : LPath) (h : InodeInv s) :
    InodeInv (getInodeForPath s p).1 := by
  unfold getInodeForPath
  cases hm : alookup p s.pathToInode with
  | some i =>
    simp only [hm]
    exact h
  | none =>
    simp only [hm]
    cases hr : getResolvedPath s.ls p with
    | some r =>
      simp only [hr]
      exact inodeInv_add s p h
    | none =>
      simp only [hr]
      by_cases hag : existsIn (layerOf s.ls s.agentId) p = true
      · simp only [hag, if_true]
        exact inodeInv_add s p h
      · simp only [hag, if_false]
        exact h

theorem inodeInv_unlink (s : StackedState) (pInode : Nat) (n : String)
    (h : InodeInv s) : InodeInv (stackedUnlink s pInode n).1 := by
  unfold stackedUnlink
  cases hpi : alookup pInode s.inodeToPath with
  | none =>
    simp only [hpi]
    exact h
  | some pp =>
    simp only [hpi]
    cases hr : getResolvedPath s.ls (pp ++ [n]) with
    | none =>
      simp only [hr]
      exact h
    | some r =>
      simp only [hr]
      cases ha : alookup (pp ++ [n]) (layerOf s.ls s.agentId) with
      | some e =>
        cases e with
        | file c =>
          simp only [ha]
          cases hm : alookup (pp ++ [n]) s.pathToInode with
          | none =>
            simp only [hm]
            exact inodeInv_of_eq h rfl rfl rfl
          | some i =>
            simp only [hm]
            exact inodeInv_drop_state h hm rfl rfl rfl
        | dir =>
          simp only [ha]
          exact h
      | none =>
        simp only [ha]
        cases hb : alookup (pp ++ [n]) (layerFor s.ls r) with
        | some e =>
          cases e with
          | file c =>
            simp only [hb]
            cases hm : alookup (pp ++ [n]) s.pathToInode with
            | none =>
              simp only [hm]
              exact inodeInv_of_eq h rfl rfl rfl
            | some i =>
              simp only [hm]
              exact inodeInv_drop_state h hm rfl rfl rfl
          | dir =>
            simp only [hb]
            exact h
        | none =>
          simp only [hb]
          exact h

theorem inodeInv_rmdir (s : StackedState) (pInode : Nat) (n : String)
    (h : InodeInv s) : InodeInv (stackedRmdir s pInode n).1 := by
  unfold stackedRmdir
  cases hpi : alookup pInode s.inodeToPath with
  | none =>
    simp only [hpi]
    exact h
  | some pp =>
    simp only [hpi]
    cases ha : alookup (pp ++ [n]) (layerOf s.ls s.agentId) with
    | some e =>
      cases e with
      | dir =>
        simp only [ha]
        by_cases hemp : listDir (layerOf s.ls s.agentId) (pp ++ [n]) = []
        · simp only [hemp, if_true]
          cases hm : alookup (pp ++ [n]) s.pathToInode with
          | none =>
            simp only [hm]
            exact inodeInv_of_eq h rfl rfl rfl
          | some i =>
            simp only [hm]
            exact inodeInv_drop_state h hm rfl rfl rfl
        · simp only [hemp, if_false]
          exact h
      | file c =>
        simp only [ha]
        exact h
    | none =>
      simp only [ha]
      cases hm : alookup (pp ++ [n]) s.pathToInode with
      | none =>
        simp only [hm]
        exact inodeInv_of_eq h rfl rfl rfl
      | some i =>
        simp only [hm]
        exact inodeInv_drop_state h hm rfl rfl rfl

theorem inodeInv_rename (s : StackedState) (pOld : Nat) (nOld : String)
    (pNew : Nat) (nNew : String) (h : InodeInv s)
    (hNew : ∀ npp, alookup pNew s.inodeToPath = some npp →
      alookup (npp ++ [nNew]) s.pathToInode = none) :
    InodeInv (stackedRename s pOld nOld pNew nNew).1 := by
  unfold stackedRename
  cases hpo : alookup pOld s.inodeToPath with
  | none =>
    simp only [hpo]
    exact h
  | some opp =>
    simp only [hpo]
    cases hpn : alookup pNew s.inodeToPath with
    | none =>
      simp only [hpn]
      exact h
    | some npp =>
      simp only [hpn]
      have hnew := hNew npp hpn
      by_cases hcf : checkConflictS s (opp ++ [nOld]) = true
      · simp only [hcf, if_true]
        exact inodeInv_of_eq h rfl rfl rfl
      · simp only [hcf, if_false]
        cases hr : getResolvedPath s.ls (opp ++ [nOld]) with
        | none =>
          simp only [hr]
          cases ha : alookup (opp ++ [nOld]) (layerOf s.ls s.agentId) with
          | none =>
            simp only [ha]
            by_cases hnil : opp ++ [nOld] = []
            · simp only [hnil, if_true]
              exact h
            · simp only [hnil, if_false]
              exact h
          | some e =>
            simp only [ha]
            cases hold : alookup (opp ++ [nOld]) s.pathToInode with
            | none =>
              simp only [hold]
              cases hfc : alookup (opp ++ [nOld]) s.fileContents with
              | none =>
                simp only [hfc]
                exact inodeInv_of_eq h rfl rfl rfl
              | some he =>
                simp only [hfc]
                exact inodeInv_of_eq h rfl rfl rfl
            | some i =>
              simp only [hold]
              cases hfc : alookup (opp ++ [nOld]) s.fileContents with
              | none =>
                simp only [hfc]
                exact inodeInv_rename_state h hold hnew rfl rfl rfl
              | some he =>
                simp only [hfc]
                exact inodeInv_rename_state h hold hnew rfl rfl rfl
        | some r =>
          simp only [hr]
          by_cases hrr : r = LayerRef.agent s.agentId
          · simp only [hrr, decide_True, if_true]
            cases ha : alookup (opp ++ [nOld]) (layerOf s.ls s.agentId) with
            | none =>
              simp only [ha]
              by_cases hnil : opp ++ [nOld] = []
              · simp only [hnil, if_true]
                exact h
              · simp only [hnil, if_false]
                exact h
            | some e =>
              simp only [ha]
              cases hold : alookup (opp ++ [nOld]) s.pathToInode with
              | none =>
                simp only [hold]
                cases hfc : alookup (opp ++ [nOld]) s.fileContents with
                | none =>
                  simp only [hfc]
                  exact inodeInv_of_eq h rfl rfl rfl
                | some he =>
                  simp only [hfc]
                  exact inodeInv_of_eq h rfl rfl rfl
              | some i =>
                simp only [hold]
                cases hfc : alookup (opp ++ [nOld]) s.fileContents with
                | none =>
                  simp only [hfc]
                  exact inodeInv_rename_state h hold hnew rfl rfl rfl
                | some he =>
                  simp only [hfc]
                  exact inodeInv_rename_state h hold hnew rfl rfl rfl
          · have hd : decide (r = LayerRef.agent s.agentId) = false := by
              simp [hrr]
            simp only [hd, if_false]
            exact h

/-- C7 counterexample: the inode maps are *not* mutual inverses at all
times.  After `lookup /p` (inode 2), `lookup /q` (inode 3) and
`rename /p → /q` — which succeeds, `/q`'s only copy living in base while
`/p` is an active-layer file — the stale pair `3 ↦ /q` survives in the
inode→path map while the path→inode map sends `/q` to 2. -/
theorem c7_counterexample :
    (stackedRename exC7b 1 "p" 1 "q").2 = .ok () ∧
    ¬ MapsInverse exC7c.pathToInode exC7c.inodeToPath := by
  constructor
  · decide
  · intro h
    have h1 : alookup 3 exC7c.inodeToPath = some ["q"] := by decide
    have h2 := (h ["q"] 3).mpr h1
    have h3 : alookup ["q"] exC7c.pathToInode = some 2 := by decide
    rw [h3] at h2
    exact absurd h2 (by decide)

/-- C7 (amended): the path→inode and inode→path maps are mutual inverses
(with all inodes bounded by the counter) at all times **provided every
successful rename targets a path that has no inode mapping yet**: the
invariant is preserved by `_add_path_to_inode_map`,
`_get_inode_for_path`, `unlink`, `rmdir`, and by `rename` under that
proviso; and such a rename of a mapped active-layer file preserves the
inode integer while rewriting both directions — the new name maps to the
old inode, the old name is no longer mapped.  (The counterexample shows
the invariant breaks when the rename target is already mapped: the
target's stale inode→path entry survives.) -/
theorem c7_inode_maps :
    (∀ (s : StackedState) (p : LPath), InodeInv s →
      InodeInv (addPathToInodeMap s p).1) ∧
    (∀ (s : StackedState) (p : LPath), InodeInv s →
      InodeInv (getInodeForPath s p).1) ∧
    (∀ (s : StackedState) (pInode : Nat) (n : String), InodeInv s →
      InodeInv (stackedUnlink s pInode n).1) ∧
    (∀ (s : StackedState) (pInode : Nat) (n : String), InodeInv s →
      InodeInv (stackedRmdir s pInode n).1) ∧
    (∀ (s : StackedState) (pOld : Nat) (nOld : String) (pNew : Nat)
        (nNew : String), InodeInv s →
      (∀ npp, alookup pNew s.inodeToPath = some npp →
        alookup (npp ++ [nNew]) s.pathToInode = none) →
      InodeInv (stackedRename s pOld nOld pNew nNew).1) ∧
    (∀ (s : StackedState) (pOld : Nat) (nOld : String) (pNew : Nat)
        (nNew : String) (opp npp : LPath) (i : Nat) (e : FsEntry),
      alookup pOld s.inodeToPath = some opp →
      alookup pNew s.inodeToPath = some npp →
      checkConflictS s (opp ++ [nOld]) = false →
      (getResolvedPath s.ls (opp ++ [nOld]) = none ∨
        getResolvedPath s.ls (opp ++ [nOld]) = some (.agent s.agentId)) →
      alookup (opp ++ [nOld]) (layerOf s.ls s.agentId) = some e →
      alookup (opp ++ [nOld]) s.pathToInode = some i →
      alookup (npp ++ [nNew]) s.pathToInode = none →
      (stackedRename s pOld nOld pNew nNew).2 = .ok () ∧
      alookup (npp ++ [nNew])
        (stackedRename s pOld nOld pNew nNew).1.pathToInode = some i ∧
      alookup (opp ++ [nOld])
        (stackedRename s pOld nOld pNew nNew).1.pathToInode = none ∧
      alookup i (stackedRename s pOld nOld pNew nNew).1.inodeToPath
        = some (npp ++ [nNew])) := by
  refine ⟨inodeInv_add, inodeInv_getInode, inodeInv_unlink, inodeInv_rmdir,
    inodeInv_rename, ?_⟩
  intro s pOld nOld pNew nNew opp npp i e hpo hpn hcf hrd ha hold hnew
  have hne : opp ++ [nOld] ≠ npp ++ [nNew] := by
    intro hh
    rw [hh, hnew] at hold
    cases hold
  unfold stackedRename
  simp only [hpo, hpn, hcf, Bool.false_eq_true, if_false]
  have hkeep :
      (match getResolvedPath s.ls (opp ++ [nOld]) with
        | some r => decide (r = LayerRef.agent s.agentId)
        | none => true) = true := by
    rcases hrd with hr | hr <;> simp [hr]
  simp only [hkeep, if_true, ha, hold]
  cases hfc : alookup (opp ++ [nOld]) s.fileContents with
  | none =>
    simp only [hfc]
    refine ⟨trivial, ?_, ?_, ?_⟩
    · exact alookup_aupdate_self _ _ _
    · rw [alookup_aupdate_ne _ _ hne]
      exact alookup_aerase_self _ _
    · exact alookup_aupdate_self _ _ _
  | some he =>
    simp only [hfc]
    refine ⟨trivial, ?_, ?_, ?_⟩
    · exact alookup_aupdate_self _ _ _
    · rw [alookup_aupdate_ne _ _ hne]
      exact alookup_aerase_self _ _
    · exact alookup_aupdate_self _ _ _

/-- C7 witness: renaming the mapped active-layer `/p` (inode 2) onto the
unmapped `/z` succeeds, keeps inode 2, maps `/z` to it, and unmaps
`/p`. -/
theorem c7_inode_maps_witness :
    (stackedRename exC7a 1 "p" 1 "z").2 = .ok () ∧
    alookup ["z"] (stackedRename exC7a 1 "p" 1 "z").1.pathToInode = some 2 ∧
    alookup ["p"] (stackedRename exC7a 1 "p" 1 "z").1.pathToInode = none ∧
    alookup 2 (stackedRename exC7a 1 "p" 1 "z").1.inodeToPath = some ["z"] :=
  c7_inode_maps.2.2.2.2.2 exC7a 1 "p" 1 "z" [] [] 2 (.file [1]) (by decide)
    (by decide) (by decide) (Or.inr (by decide)) (by decide) (by decide)
    (by decide)

end AgentFS
